import Mathlib

/-!
Verification development for the FibonRoseTrust blockchain_examples package.

The Python modules `blockchain_examples/metrics.py` and
`blockchain_examples/event_logger.py` are shallowly embedded below:

* Python `dict` objects (insertion-ordered maps) become association lists with
  dict semantics: assignment replaces the value of an existing key in place
  (keeping its position) and otherwise appends at the end; `pop` removes the
  entry; iteration order is list order.
* Python `float` values become `ℚ`; Python `int` becomes `ℤ`; `None`-able
  fields become `Option`; `raise` becomes `Except String`.
* Wall-clock reads (`time.time()`) are threaded explicitly as `ℚ` arguments.
-/

namespace BlockchainExamples

/-! ### Python dict primitives (insertion-ordered association lists) -/

variable {κ : Type} {α : Type} [DecidableEq κ]

/-- `d[k] = v` on a Python dict: replace the value at the first entry whose key
is `k` (keeping its position), otherwise append `(k, v)` at the end. -/
def dictInsert (d : List (κ × α)) (k : κ) (v : α) : List (κ × α) :=
  match d with
  | [] => [(k, v)]
  | (k', v') :: t => if k' = k then (k, v) :: t else (k', v') :: dictInsert t k v

/-- `d.get(k)` / `d[k]` lookup: the value of the first entry with key `k`. -/
def dictGet? (d : List (κ × α)) (k : κ) : Option α :=
  match d with
  | [] => none
  | (k', v') :: t => if k' = k then some v' else dictGet? t k

/-- `k in d` membership test on a Python dict. -/
def dictContains (d : List (κ × α)) (k : κ) : Bool :=
  (dictGet? d k).isSome

/-- `d.pop(k)`: remove the entry with key `k` (state after the pop). -/
def dictPop (d : List (κ × α)) (k : κ) : List (κ × α) :=
  match d with
  | [] => []
  | (k', v') :: t => if k' = k then t else (k', v') :: dictPop t k

/-- In-place mutation of the object stored at key `k` (Python holds a
reference into the dict, so mutating the object updates the mapping). -/
def dictModify (d : List (κ × α)) (k : κ) (f : α → α) : List (κ × α) :=
  match d with
  | [] => []
  | (k', v') :: t => if k' = k then (k', f v') :: t else (k', v') :: dictModify t k f

/-- `list(d.keys())`. -/
def dictKeys (d : List (κ × α)) : List κ := d.map Prod.fst

/-- `list(d.values())`. -/
def dictValues (d : List (κ × α)) : List α := d.map Prod.snd

/-! ### metrics.py — `ComplexityLevel` and `TaskMetrics` -/

/-- `ComplexityLevel` enumeration (`metrics.py`). -/
inductive ComplexityLevel where
  | SIMPLE
  | MODERATE
  | COMPLEX
  | VERY_COMPLEX
  | EXTREME
deriving DecidableEq, Repr

/-- `level.name` of the Python enum. -/
def ComplexityLevel.levelName : ComplexityLevel → String
  | .SIMPLE => "SIMPLE"
  | .MODERATE => "MODERATE"
  | .COMPLEX => "COMPLEX"
  | .VERY_COMPLEX => "VERY_COMPLEX"
  | .EXTREME => "EXTREME"

/-- Iteration order of `for level in ComplexityLevel`. -/
def ComplexityLevel.all : List ComplexityLevel :=
  [.SIMPLE, .MODERATE, .COMPLEX, .VERY_COMPLEX, .EXTREME]

/-- `TaskMetrics` dataclass (`metrics.py`).  The free-form `metadata` dict
(`Dict[str, Any]`, an unconstrained payload never read by the engine's logic)
is not carried in the embedding. -/
structure TaskMetrics where
  task_id : String
  task_name : String
  start_time : ℚ
  end_time : Option ℚ := none
  execution_time : Option ℚ := none
  gas_used : ℤ := 0
  transaction_count : ℤ := 0
  contract_calls : ℤ := 0
  data_size : ℤ := 0
  network_requests : ℤ := 0
  complexity_score : Option ℚ := none
  complexity_level : Option ComplexityLevel := none
deriving DecidableEq, Repr

/-- `TaskMetrics.complete` at clock reading `now`. -/
def TaskMetrics.complete (now : ℚ) (m : TaskMetrics) : TaskMetrics :=
  { m with end_time := some now, execution_time := some (now - m.start_time) }

/-! ### Python `round(x, ndigits)`

Python rounds to the nearest multiple of `10 ^ (-ndigits)`, breaking exact
ties toward the even multiple (banker's rounding). -/

/-- Round to the nearest integer, ties to even. -/
def roundHalfEven (q : ℚ) : ℤ :=
  let f : ℤ := ⌊q⌋
  let r : ℚ := q - f
  if r < 1/2 then f
  else if 1/2 < r then f + 1
  else if Even f then f else f + 1

/-- `round(q, p)`: round to `p` decimal places, ties to even. -/
def pyRound (p : ℕ) (q : ℚ) : ℚ :=
  (roundHalfEven (q * 10 ^ p) : ℚ) / 10 ^ p

/-! ### metrics.py — `MetricsCollector` -/

/-- `MetricsCollector` state: `tasks` (completed) and `active_tasks`,
both Python dicts keyed by `task_id`. -/
structure MetricsCollector where
  tasks : List (String × TaskMetrics) := []
  active_tasks : List (String × TaskMetrics) := []
deriving Repr

/-- `MetricsCollector()` initial state. -/
def MetricsCollector.init : MetricsCollector := {}

/-- `MetricsCollector.calculate_complexity_score`. -/
def calculate_complexity_score (metrics : TaskMetrics) : ℚ :=
  -- time_score = min((metrics.execution_time or 0) / 10.0 * 100, 100)
  let time_score := min ((metrics.execution_time.getD 0) / 10 * 100) 100
  -- gas_score = min((metrics.gas_used / 500000.0) * 100, 100)
  let gas_score := min (((metrics.gas_used : ℚ) / 500000) * 100) 100
  -- tx_score = min((metrics.transaction_count / 10.0) * 100, 100)
  let tx_score := min (((metrics.transaction_count : ℚ) / 10) * 100) 100
  -- calls_score = min((metrics.contract_calls / 10.0) * 100, 100)
  let calls_score := min (((metrics.contract_calls : ℚ) / 10) * 100) 100
  -- network_score = min((metrics.network_requests / 20.0) * 100, 100)
  let network_score := min (((metrics.network_requests : ℚ) / 20) * 100) 100
  let complexity :=
    time_score * 0.3 +
    gas_score * 0.25 +
    tx_score * 0.2 +
    calls_score * 0.15 +
    network_score * 0.1
  pyRound 2 complexity

/-- `MetricsCollector.categorize_complexity`. -/
def categorize_complexity (score : ℚ) : ComplexityLevel :=
  if score < 20 then .SIMPLE
  else if score < 40 then .MODERATE
  else if score < 60 then .COMPLEX
  else if score < 80 then .VERY_COMPLEX
  else .EXTREME

/-- `MetricsCollector.start_task` at clock reading `now` (metadata elided, see
`TaskMetrics`). -/
def start_task (now : ℚ) (task_id task_name : String) (st : MetricsCollector) :
    MetricsCollector × TaskMetrics :=
  let metrics : TaskMetrics := { task_id, task_name, start_time := now }
  ({ st with active_tasks := dictInsert st.active_tasks task_id metrics }, metrics)

/-- `MetricsCollector.end_task` at clock reading `now`.  Raising `KeyError`
leaves the collector unchanged and is returned as `.error`. -/
def end_task (now : ℚ) (task_id : String) (st : MetricsCollector) :
    MetricsCollector × Except String TaskMetrics :=
  match dictGet? st.active_tasks task_id with
  | none => (st, .error ("Task " ++ task_id ++ " not found in active tasks"))
  | some m =>
    let m := m.complete now
    let score := calculate_complexity_score m
    let m := { m with
                complexity_score := some score,
                complexity_level := some (categorize_complexity score) }
    ({ tasks := dictInsert st.tasks task_id m,
       active_tasks := dictPop st.active_tasks task_id }, .ok m)

/-- `MetricsCollector.update_task`: each present delta is added to the
corresponding counter of the active task (the object held by the dict is
mutated in place). -/
def update_task (task_id : String)
    (gas_used transaction_count contract_calls data_size network_requests : Option ℤ)
    (st : MetricsCollector) : MetricsCollector × Except String Unit :=
  if dictContains st.active_tasks task_id then
    ({ st with active_tasks := dictModify st.active_tasks task_id (fun m =>
        { m with
          gas_used := m.gas_used + gas_used.getD 0,
          transaction_count := m.transaction_count + transaction_count.getD 0,
          contract_calls := m.contract_calls + contract_calls.getD 0,
          data_size := m.data_size + data_size.getD 0,
          network_requests := m.network_requests + network_requests.getD 0 }) },
     .ok ())
  else (st, .error ("Task " ++ task_id ++ " not found in active tasks"))

/-- Return shape of `MetricsCollector.get_summary`. -/
structure Summary where
  total_tasks : ℕ
  avg_complexity_score : ℚ
  avg_execution_time : ℚ
  total_gas_used : ℤ
  complexity_distribution : List (String × ℕ)
deriving DecidableEq, Repr

/-- `MetricsCollector.get_summary`. -/
def get_summary (st : MetricsCollector) : Summary :=
  if st.tasks = [] then
    { total_tasks := 0, avg_complexity_score := 0, avg_execution_time := 0,
      total_gas_used := 0, complexity_distribution := [] }
  else
    let vals := dictValues st.tasks
    let total_score := (vals.map (fun m => m.complexity_score.getD 0)).sum
    let total_time := (vals.map (fun m => m.execution_time.getD 0)).sum
    let total_gas := (vals.map (fun m => m.gas_used)).sum
    let complexity_dist := ComplexityLevel.all.map (fun level =>
      (level.levelName, vals.countP (fun m => m.complexity_level = some level)))
    { total_tasks := vals.length,
      avg_complexity_score := pyRound 2 (total_score / vals.length),
      avg_execution_time := pyRound 3 (total_time / vals.length),
      total_gas_used := total_gas,
      complexity_distribution := complexity_dist }

/-! ### event_logger.py — events, handler registry, `EventLogger` -/

/-- Event log record as returned by the external source.  For the engine's
logic only the transaction identifier (`transactionHash`, the deduplication
key) matters; the remaining fields (log index, block number, argument data)
are folded into an opaque `payload` that distinguishes distinct records
sharing a transaction hash. -/
structure Event where
  transactionHash : ℕ
  payload : ℕ
deriving DecidableEq, Repr

/-- A registered handler: invoked on an event, it either returns or raises
(raises are caught by `process_event`). -/
def Handler : Type := Event → Except String Unit

/-- `EventLogger.event_handlers`: Python dict from event name to the ordered
list of registered handlers. -/
def EventHandlers : Type := List (String × List Handler)

/-- `EventLogger.register_handler`: create the list on first registration,
then append (no uniqueness check). -/
def register_handler (H : EventHandlers) (event_name : String) (handler : Handler) :
    EventHandlers :=
  let H := if dictContains H event_name then H else dictInsert H event_name []
  dictModify H event_name (fun hs => hs ++ [handler])

/-- The loop body of `EventLogger._process_event`: each handler is invoked in
turn inside `try/except Exception`, so a raise is caught and the iteration
continues; the per-handler outcomes are returned (the caller receives none of
them — in particular no exception). -/
def runHandlers (hs : List Handler) (event : Event) : List (Except String Unit) :=
  match hs with
  | [] => []
  | h :: t => h event :: runHandlers t event

/-- `EventLogger._process_event`: a no-op unless `event_name` has an entry in
the handler dict. -/
def process_event (H : EventHandlers) (event : Event) (event_name : String) :
    List (Except String Unit) :=
  match dictGet? H event_name with
  | none => []
  | some hs => runHandlers hs event

/-- The dict-comprehension deduplication of `watch_address_transfers`:
`list({event['transactionHash']: event for event in events}.values())`. -/
def dedupByTxHash (events : List Event) : List Event :=
  dictValues (events.foldl (fun d e => dictInsert d e.transactionHash e) [])

/-- Modelled size of `len(str(events))` (the exact character count is
irrelevant to the engine's logic; only that some byte-size is recorded). -/
def dataSizeOf (events : List Event) : ℤ := (events.length : ℤ)

/-- `EventLogger` state: its metrics collector, handler dict, and whether a
contract binding is configured (`self.contract is not None`). -/
structure EventLogger where
  metrics_collector : MetricsCollector := {}
  event_handlers : EventHandlers := []
  hasContract : Bool

/-- `EventLogger.watch_address_transfers`.  The two range queries against the
external source are a single parameter `src`: `.ok (from_events, to_events)`
when both succeed, `.error e` when the source raises.  `t0`/`t1` are the clock
readings at start and at the `finally` block.  Returns the updated logger and
the call's outcome. -/
def watch_address_transfers (t0 t1 : ℚ) (EL : EventLogger) (address : String)
    (src : Except String (List Event × List Event)) :
    EventLogger × Except String (List Event) :=
  let task_id := "watch_transfers_" ++ address.take 10
  let mc1 := (start_task t0 task_id "Watch Address Transfers" EL.metrics_collector).1
  -- try-block body, producing the collector state and the in-flight outcome
  let body : MetricsCollector × Except String (List Event) :=
    if ¬ EL.hasContract then
      (mc1, .error "Contract instance required for watching transfers")
    else
      match src with
      | .error e => (mc1, .error e)
      | .ok (from_events, to_events) =>
        let all_events := dedupByTxHash (from_events ++ to_events)
        -- for event in all_events: self._process_event(event, 'Transfer')
        let _ := all_events.map (fun e => process_event EL.event_handlers e "Transfer")
        match update_task task_id none none none (some (dataSizeOf all_events)) (some 2) mc1 with
        | (mc2, .error e) => (mc2, .error e)
        | (mc2, .ok _) => (mc2, .ok all_events)
  -- finally: self.metrics_collector.end_task(task_id); an exception raised
  -- there replaces the in-flight outcome
  match end_task t1 task_id body.1 with
  | (mc3, .error e) => ({ EL with metrics_collector := mc3 }, .error e)
  | (mc3, .ok _) => ({ EL with metrics_collector := mc3 }, body.2)

/-- `EventLogger.get_past_events`.  The single range query is the parameter
`src`; otherwise as `watch_address_transfers` (no deduplication). -/
def get_past_events (t0 t1 : ℚ) (EL : EventLogger) (event_name : String)
    (src : Except String (List Event)) :
    EventLogger × Except String (List Event) :=
  let task_id := "get_past_" ++ event_name ++ "_events"
  if ¬ EL.hasContract then
    -- the guard precedes start_task in the source
    (EL, .error ("Contract instance required for getting past events"))
  else
    let mc1 := (start_task t0 task_id ("Get Past " ++ event_name ++ " Events")
                  EL.metrics_collector).1
    let body : MetricsCollector × Except String (List Event) :=
      match src with
      | .error e => (mc1, .error e)
      | .ok events =>
        let _ := events.map (fun e => process_event EL.event_handlers e event_name)
        match update_task task_id none none none (some (dataSizeOf events)) (some 1) mc1 with
        | (mc2, .error e) => (mc2, .error e)
        | (mc2, .ok _) => (mc2, .ok events)
    match end_task t1 task_id body.1 with
    | (mc3, .error e) => ({ EL with metrics_collector := mc3 }, .error e)
    | (mc3, .ok _) => ({ EL with metrics_collector := mc3 }, body.2)

/-! ### Traces of Instrumentation Engine operations (for the lifecycle
invariants) -/

/-- One public lifecycle call against a `MetricsCollector`. -/
inductive TraceOp where
  | startOp (t : ℚ) (task_id task_name : String)
  | updateOp (task_id : String)
      (gas_used transaction_count contract_calls data_size network_requests : Option ℤ)
  | endOp (t : ℚ) (task_id : String)

/-- Effect of one call on the collector state (a raised `KeyError` leaves the
state unchanged, as in the source). -/
def stepOp (st : MetricsCollector) : TraceOp → MetricsCollector
  | .startOp t task_id task_name => (start_task t task_id task_name st).1
  | .updateOp task_id g tx c d n => (update_task task_id g tx c d n st).1
  | .endOp t task_id => (end_task t task_id st).1

/-- Run a sequence of lifecycle calls. -/
def runOps (st : MetricsCollector) (ops : List TraceOp) : MetricsCollector :=
  ops.foldl stepOp st

/-- The two mappings share no key. -/
def DisjointMaps (st : MetricsCollector) : Prop :=
  ∀ k, k ∈ dictKeys st.active_tasks → k ∉ dictKeys st.tasks

/-- Well-formedness of the dict representation: keys are unique (true of every
Python dict). -/
def WFCollector (st : MetricsCollector) : Prop :=
  (dictKeys st.tasks).Nodup ∧ (dictKeys st.active_tasks).Nodup

/-- A trace from `st` never starts a key that already has a completed record. -/
def goodTrace : MetricsCollector → List TraceOp → Prop
  | _, [] => True
  | st, op :: rest =>
    (match op with
     | .startOp _ task_id _ => task_id ∉ dictKeys st.tasks
     | _ => True) ∧ goodTrace (stepOp st op) rest

/-! ### Lemmas about the dict primitives -/

theorem dictGet?_insert (d : List (κ × α)) (k k' : κ) (v : α) :
    dictGet? (dictInsert d k v) k' = if k = k' then some v else dictGet? d k' := by
  induction d with
  | nil => simp [dictInsert, dictGet?]
  | cons p t ih =>
    obtain ⟨a, b⟩ := p
    by_cases hak : a = k
    · subst hak
      by_cases hk' : a = k' <;> simp [dictInsert, dictGet?, hk']
    · by_cases hak' : a = k'
      · subst hak'
        have hka : ¬ k = a := fun h => hak h.symm
        simp [dictInsert, dictGet?, hak, hka]
      · simp [dictInsert, dictGet?, hak, hak', ih]

omit [DecidableEq κ] in
theorem dictKeys_cons (a : κ) (b : α) (t : List (κ × α)) :
    dictKeys ((a, b) :: t) = a :: dictKeys t := rfl

theorem mem_dictKeys_iff (d : List (κ × α)) (k : κ) :
    k ∈ dictKeys d ↔ (dictGet? d k).isSome := by
  induction d with
  | nil => simp [dictKeys, dictGet?]
  | cons p t ih =>
    obtain ⟨a, b⟩ := p
    by_cases h : a = k
    · simp [dictKeys_cons, dictGet?, h]
    · have hka : ¬ k = a := fun h' => h h'.symm
      simp [dictKeys_cons, dictGet?, h, hka, ih]

theorem mem_dictKeys_insert (d : List (κ × α)) (k a : κ) (v : α) :
    a ∈ dictKeys (dictInsert d k v) ↔ a ∈ dictKeys d ∨ a = k := by
  rw [mem_dictKeys_iff, dictGet?_insert, mem_dictKeys_iff]
  by_cases h : k = a
  · simp [h]
  · simp [h, Ne.symm h]

theorem dictKeys_insert_of_mem (d : List (κ × α)) (k : κ) (v : α)
    (h : k ∈ dictKeys d) : dictKeys (dictInsert d k v) = dictKeys d := by
  induction d with
  | nil => simp [dictKeys] at h
  | cons p t ih =>
    obtain ⟨a, b⟩ := p
    by_cases hak : a = k
    · simp [dictInsert, dictKeys_cons, hak]
    · have h' : k ∈ dictKeys t := by
        rw [dictKeys_cons, List.mem_cons] at h
        rcases h with h1 | h1
        · exact absurd h1.symm hak
        · exact h1
      simp [dictInsert, dictKeys_cons, hak]
      exact ih h'

theorem dictKeys_insert_of_not_mem (d : List (κ × α)) (k : κ) (v : α)
    (h : k ∉ dictKeys d) : dictKeys (dictInsert d k v) = dictKeys d ++ [k] := by
  induction d with
  | nil => simp [dictInsert, dictKeys]
  | cons p t ih =>
    obtain ⟨a, b⟩ := p
    rw [dictKeys_cons, List.mem_cons] at h
    push_neg at h
    have h1 : ¬ a = k := fun hak => h.1 hak.symm
    simp [dictInsert, dictKeys_cons, h1]
    exact ih h.2

theorem nodup_dictKeys_insert (d : List (κ × α)) (k : κ) (v : α)
    (h : (dictKeys d).Nodup) : (dictKeys (dictInsert d k v)).Nodup := by
  by_cases hm : k ∈ dictKeys d
  · rwa [dictKeys_insert_of_mem d k v hm]
  · rw [dictKeys_insert_of_not_mem d k v hm]
    refine List.Nodup.append h (List.nodup_singleton k) ?_
    intro a ha hak
    rw [List.mem_singleton] at hak
    exact hm (hak ▸ ha)

theorem dictKeys_modify (d : List (κ × α)) (k : κ) (f : α → α) :
    dictKeys (dictModify d k f) = dictKeys d := by
  induction d with
  | nil => rfl
  | cons p t ih =>
    obtain ⟨a, b⟩ := p
    by_cases h : a = k
    · simp [dictModify, dictKeys_cons, h]
    · simp [dictModify, dictKeys_cons, h]
      exact ih

theorem dictGet?_modify (d : List (κ × α)) (k k' : κ) (f : α → α) :
    dictGet? (dictModify d k f) k' =
      if k = k' then (dictGet? d k).map f else dictGet? d k' := by
  induction d with
  | nil => simp [dictModify, dictGet?]
  | cons p t ih =>
    obtain ⟨a, b⟩ := p
    by_cases hak : a = k
    · subst hak
      by_cases hk' : a = k' <;> simp [dictModify, dictGet?, hk']
    · by_cases hak' : a = k'
      · subst hak'
        have hka : ¬ k = a := fun h => hak h.symm
        simp [dictModify, dictGet?, hak, hka]
      · simp [dictModify, dictGet?, hak, hak', ih]

theorem dictKeys_pop_sublist (d : List (κ × α)) (k : κ) :
    (dictKeys (dictPop d k)).Sublist (dictKeys d) := by
  induction d with
  | nil => simp [dictPop, dictKeys]
  | cons p t ih =>
    obtain ⟨a, b⟩ := p
    by_cases h : a = k
    · rw [show dictPop ((a, b) :: t) k = t by simp [dictPop, h], dictKeys_cons]
      exact List.sublist_cons_self a (dictKeys t)
    · rw [show dictPop ((a, b) :: t) k = (a, b) :: dictPop t k by simp [dictPop, h],
        dictKeys_cons, dictKeys_cons]
      exact List.Sublist.cons₂ a ih

theorem mem_dictKeys_pop (d : List (κ × α)) (k a : κ)
    (hnd : (dictKeys d).Nodup) (h : a ∈ dictKeys (dictPop d k)) :
    a ∈ dictKeys d ∧ a ≠ k := by
  induction d with
  | nil => simp [dictPop, dictKeys] at h
  | cons p t ih =>
    obtain ⟨x, y⟩ := p
    rw [dictKeys_cons, List.nodup_cons] at hnd
    by_cases hxk : x = k
    · subst hxk
      have ha : a ∈ dictKeys t := by
        rwa [show dictPop ((x, y) :: t) x = t by simp [dictPop]] at h
      refine ⟨by rw [dictKeys_cons]; exact List.mem_cons_of_mem x ha, ?_⟩
      intro hak; exact hnd.1 (hak ▸ ha)
    · rw [show dictPop ((x, y) :: t) k = (x, y) :: dictPop t k by simp [dictPop, hxk],
        dictKeys_cons, List.mem_cons] at h
      rcases h with h' | h'
      · exact ⟨by rw [dictKeys_cons, h']; exact List.mem_cons_self x (dictKeys t),
          by rw [h']; exact hxk⟩
      · have := ih hnd.2 h'
        exact ⟨by rw [dictKeys_cons]; exact List.mem_cons_of_mem x this.1, this.2⟩

theorem dictGet?_pop_self (d : List (κ × α)) (k : κ)
    (hnd : (dictKeys d).Nodup) : dictGet? (dictPop d k) k = none := by
  by_contra h
  have hs : (dictGet? (dictPop d k) k).isSome := by
    cases hv : dictGet? (dictPop d k) k with
    | none => exact absurd hv h
    | some v => simp
  have := mem_dictKeys_pop d k k hnd ((mem_dictKeys_iff _ k).mpr hs)
  exact this.2 rfl

theorem dictGet?_pop_ne (d : List (κ × α)) (k a : κ) (h : a ≠ k) :
    dictGet? (dictPop d k) a = dictGet? d a := by
  induction d with
  | nil => rfl
  | cons p t ih =>
    obtain ⟨x, y⟩ := p
    by_cases hxk : x = k
    · subst hxk
      have hxa : ¬ x = a := fun h' => h h'.symm
      simp [dictPop, dictGet?, hxa]
    · by_cases hxa : x = a
      · subst hxa
        simp [dictPop, dictGet?, hxk]
      · simp [dictPop, dictGet?, hxk, hxa, ih]

theorem dictGet?_eq_of_mem (d : List (κ × α)) (k : κ) (v : α)
    (hnd : (dictKeys d).Nodup) (h : (k, v) ∈ d) : dictGet? d k = some v := by
  induction d with
  | nil => simp at h
  | cons p t ih =>
    obtain ⟨x, y⟩ := p
    rw [dictKeys_cons, List.nodup_cons] at hnd
    rcases List.mem_cons.mp h with h | h
    · obtain ⟨hx, hy⟩ := Prod.ext_iff.mp h
      simp only [] at hx hy
      simp [dictGet?, ← hx, hy]
    · have hk : k ∈ dictKeys t := List.mem_map_of_mem Prod.fst h
      have hxk : ¬ x = k := fun hx => hnd.1 (by rwa [hx])
      simp [dictGet?, hxk]
      exact ih hnd.2 h

theorem mem_dictInsert (d : List (κ × α)) (k : κ) (v : α) (p : κ × α)
    (h : p ∈ dictInsert d k v) : p ∈ d ∨ p = (k, v) := by
  induction d with
  | nil => simpa [dictInsert] using h
  | cons q t ih =>
    obtain ⟨x, y⟩ := q
    by_cases hxk : x = k
    · simp [dictInsert, hxk] at h
      rcases h with h | h
      · exact Or.inr h
      · exact Or.inl (List.mem_cons_of_mem _ h)
    · simp [dictInsert, hxk] at h
      rcases h with h | h
      · exact Or.inl (by simp [h])
      · rcases ih h with h' | h'
        · exact Or.inl (List.mem_cons_of_mem _ h')
        · exact Or.inr h'

/-! ### Rounding bounds -/

theorem roundHalfEven_bounds (q : ℚ) : (⌊q⌋ : ℤ) ≤ roundHalfEven q ∧ roundHalfEven q ≤ ⌈q⌉ := by
  unfold roundHalfEven
  have hfr : (⌊q⌋ : ℚ) ≤ q := Int.floor_le q
  have hfc : ⌊q⌋ ≤ ⌈q⌉ := Int.floor_le_ceil q
  have hceil : (⌊q⌋ : ℚ) < q → ⌊q⌋ + 1 ≤ ⌈q⌉ := by
    intro hpos
    have := Int.lt_ceil.mpr hpos
    omega
  simp only []
  split_ifs with h1 h2 h3
  · exact ⟨le_refl _, hfc⟩
  · have hpos : (⌊q⌋ : ℚ) < q := by linarith
    exact ⟨by omega, hceil hpos⟩
  · exact ⟨le_refl _, hfc⟩
  · have hpos : (⌊q⌋ : ℚ) < q := by
      push_neg at h1
      linarith
    exact ⟨by omega, hceil hpos⟩

theorem pyRound_bounds (p : ℕ) (q lo hi : ℚ) (hlo : lo ≤ q) (hhi : q ≤ hi)
    (hloInt : ∃ n : ℤ, lo = (n : ℚ)) (hhiInt : ∃ n : ℤ, hi = (n : ℚ)) :
    lo ≤ pyRound p q ∧ pyRound p q ≤ hi := by
  obtain ⟨nl, hnl⟩ := hloInt
  obtain ⟨nh, hnh⟩ := hhiInt
  have hpow : (0 : ℚ) < 10 ^ p := by positivity
  obtain ⟨hb1, hb2⟩ := roundHalfEven_bounds (q * 10 ^ p)
  have hfl : (nl * 10 ^ p : ℤ) ≤ ⌊q * 10 ^ p⌋ := by
    rw [Int.le_floor]
    push_cast
    rw [hnl] at hlo
    nlinarith
  have hfc : ⌈q * 10 ^ p⌉ ≤ (nh * 10 ^ p : ℤ) := by
    rw [Int.ceil_le]
    push_cast
    rw [hnh] at hhi
    nlinarith
  have h1 : (nl * 10 ^ p : ℤ) ≤ roundHalfEven (q * 10 ^ p) := le_trans hfl hb1
  have h2 : roundHalfEven (q * 10 ^ p) ≤ (nh * 10 ^ p : ℤ) := le_trans hb2 hfc
  constructor
  · rw [hnl, pyRound, le_div_iff₀ hpow]
    calc (nl : ℚ) * 10 ^ p = ((nl * 10 ^ p : ℤ) : ℚ) := by push_cast; ring
    _ ≤ _ := by exact_mod_cast h1
  · rw [hnh, pyRound, div_le_iff₀ hpow]
    calc ((roundHalfEven (q * 10 ^ p) : ℤ) : ℚ) ≤ ((nh * 10 ^ p : ℤ) : ℚ) := by exact_mod_cast h2
    _ = (nh : ℚ) * 10 ^ p := by push_cast; ring

/-- Rounding an exact integer is the identity. -/
theorem pyRound_intCast (p : ℕ) (n : ℤ) : pyRound p (n : ℚ) = (n : ℚ) := by
  unfold pyRound roundHalfEven
  have h : ((n : ℚ) * 10 ^ p) = ((n * 10 ^ p : ℤ) : ℚ) := by push_cast; ring
  rw [h, Int.floor_intCast]
  simp

/-! ### Claims about the complexity score (C1) and classification (C2) -/

/-- C1: for every `TaskMetrics` record with non-negative counters,
`calculate_complexity_score` (linear scaling of the five raw metrics against
the ceilings 10 s / 500000 / 10 / 10 / 20, clamped at 100, weighted
0.30/0.25/0.20/0.15/0.10, rounded to two decimals) yields a value in
`[0, 100]`; and at resource-units 500000, transaction-count 10,
sub-call-count 10, inbound-requests 20 and duration ≥ 10 s it yields
exactly 100.00. -/
theorem complexity_score_range_and_saturation (m : TaskMetrics)
    (ht : 0 ≤ m.execution_time.getD 0) (hg : 0 ≤ m.gas_used)
    (htx : 0 ≤ m.transaction_count) (hc : 0 ≤ m.contract_calls)
    (hn : 0 ≤ m.network_requests) :
    0 ≤ calculate_complexity_score m ∧ calculate_complexity_score m ≤ 100 ∧
    (m.gas_used = 500000 → m.transaction_count = 10 → m.contract_calls = 10 →
      m.network_requests = 20 → 10 ≤ m.execution_time.getD 0 →
      calculate_complexity_score m = 100) := by
  have hg' : (0 : ℚ) ≤ (m.gas_used : ℚ) := by exact_mod_cast hg
  have htx' : (0 : ℚ) ≤ (m.transaction_count : ℚ) := by exact_mod_cast htx
  have hc' : (0 : ℚ) ≤ (m.contract_calls : ℚ) := by exact_mod_cast hc
  have hn' : (0 : ℚ) ≤ (m.network_requests : ℚ) := by exact_mod_cast hn
  have sub_bounds : ∀ x : ℚ, 0 ≤ x → 0 ≤ min x 100 ∧ min x 100 ≤ 100 := by
    intro x hx
    exact ⟨le_min hx (by norm_num), min_le_right x 100⟩
  obtain ⟨t0, t1⟩ := sub_bounds _ (by positivity :
    (0 : ℚ) ≤ (m.execution_time.getD 0) / 10 * 100)
  obtain ⟨g0, g1⟩ := sub_bounds _ (by positivity : (0 : ℚ) ≤ ((m.gas_used : ℚ) / 500000) * 100)
  obtain ⟨x0, x1⟩ := sub_bounds _ (by positivity :
    (0 : ℚ) ≤ ((m.transaction_count : ℚ) / 10) * 100)
  obtain ⟨c0, c1⟩ := sub_bounds _ (by positivity :
    (0 : ℚ) ≤ ((m.contract_calls : ℚ) / 10) * 100)
  obtain ⟨n0, n1⟩ := sub_bounds _ (by positivity :
    (0 : ℚ) ≤ ((m.network_requests : ℚ) / 20) * 100)
  have hlo : (0 : ℚ) ≤
      min ((m.execution_time.getD 0) / 10 * 100) 100 * 0.3 +
      min (((m.gas_used : ℚ) / 500000) * 100) 100 * 0.25 +
      min (((m.transaction_count : ℚ) / 10) * 100) 100 * 0.2 +
      min (((m.contract_calls : ℚ) / 10) * 100) 100 * 0.15 +
      min (((m.network_requests : ℚ) / 20) * 100) 100 * 0.1 := by nlinarith
  have hhi :
      min ((m.execution_time.getD 0) / 10 * 100) 100 * 0.3 +
      min (((m.gas_used : ℚ) / 500000) * 100) 100 * 0.25 +
      min (((m.transaction_count : ℚ) / 10) * 100) 100 * 0.2 +
      min (((m.contract_calls : ℚ) / 10) * 100) 100 * 0.15 +
      min (((m.network_requests : ℚ) / 20) * 100) 100 * 0.1 ≤ 100 := by nlinarith
  have hbounds := pyRound_bounds 2 _ 0 100 hlo hhi ⟨0, by norm_num⟩ ⟨100, by norm_num⟩
  refine ⟨hbounds.1, hbounds.2, ?_⟩
  intro h1 h2 h3 h4 h5
  show pyRound 2 _ = 100
  rw [h1, h2, h3, h4]
  have htime : min ((m.execution_time.getD 0) / 10 * 100) 100 = 100 :=
    min_eq_right (by linarith)
  rw [htime]
  norm_num
  calc pyRound 2 100 = pyRound 2 ((100 : ℤ) : ℚ) := by norm_num
  _ = ((100 : ℤ) : ℚ) := pyRound_intCast 2 100
  _ = 100 := by norm_num

/-- Witness for C1 at the saturating input (duration exactly 10 s). -/
theorem complexity_score_range_and_saturation_witness :
    calculate_complexity_score
      { task_id := "t", task_name := "n", start_time := 0,
        execution_time := some 10, gas_used := 500000, transaction_count := 10,
        contract_calls := 10, network_requests := 20 } = 100 :=
  (complexity_score_range_and_saturation _ (by norm_num [Option.getD]) (by norm_num)
    (by norm_num) (by norm_num) (by norm_num)).2.2 rfl rfl rfl rfl
    (by norm_num [Option.getD])

/-- C2: `categorize_complexity` maps scores below 20 to SIMPLE, `[20, 40)` to
MODERATE, `[40, 60)` to COMPLEX, `[60, 80)` to VERY_COMPLEX, and everything
else (≥ 80) to EXTREME; each threshold belongs to the higher band, so
20 ↦ MODERATE, 19.99 ↦ SIMPLE, 0 ↦ SIMPLE, 100 ↦ EXTREME. -/
theorem categorize_complexity_thresholds (s : ℚ) :
    (s < 20 → categorize_complexity s = .SIMPLE) ∧
    (20 ≤ s → s < 40 → categorize_complexity s = .MODERATE) ∧
    (40 ≤ s → s < 60 → categorize_complexity s = .COMPLEX) ∧
    (60 ≤ s → s < 80 → categorize_complexity s = .VERY_COMPLEX) ∧
    (80 ≤ s → categorize_complexity s = .EXTREME) ∧
    categorize_complexity 20 = .MODERATE ∧
    categorize_complexity 19.99 = .SIMPLE ∧
    categorize_complexity 0 = .SIMPLE ∧
    categorize_complexity 100 = .EXTREME := by
  refine ⟨?_, ?_, ?_, ?_, ?_, ?_, ?_, ?_, ?_⟩
  · intro h
    simp [categorize_complexity, h]
  · intro h1 h2
    rw [categorize_complexity, if_neg (not_lt.mpr h1), if_pos h2]
  · intro h1 h2
    rw [categorize_complexity, if_neg (not_lt.mpr (by linarith)),
      if_neg (not_lt.mpr h1), if_pos h2]
  · intro h1 h2
    rw [categorize_complexity, if_neg (not_lt.mpr (by linarith)),
      if_neg (not_lt.mpr (by linarith)), if_neg (not_lt.mpr h1), if_pos h2]
  · intro h1
    rw [categorize_complexity, if_neg (not_lt.mpr (by linarith)),
      if_neg (not_lt.mpr (by linarith)), if_neg (not_lt.mpr (by linarith)),
      if_neg (not_lt.mpr h1)]
  · norm_num [categorize_complexity]
  · norm_num [categorize_complexity]
  · norm_num [categorize_complexity]
  · norm_num [categorize_complexity]

/-- Witness for C2 at score 0. -/
theorem categorize_complexity_thresholds_witness :
    categorize_complexity 0 = ComplexityLevel.SIMPLE :=
  (categorize_complexity_thresholds 0).1 (by norm_num)

/-! ### Claims about the lifecycle API (C4, C9) and handler dispatch (C7, C10) -/

/-- C4: `end_task` on a key that is not active fails with the unknown-key
error and leaves both mappings (the whole collector) unchanged; after a
successful `end_task` the key is no longer active, so a second `end_task`
for the same key fails with the unknown-key error and changes nothing. -/
theorem end_task_unknown_key (t t' : ℚ) (k : String) (st : MetricsCollector) :
    (dictGet? st.active_tasks k = none →
      end_task t k st = (st, .error ("Task " ++ k ++ " not found in active tasks"))) ∧
    ((dictKeys st.active_tasks).Nodup → ∀ m, dictGet? st.active_tasks k = some m →
      (end_task t k st).2.isOk = true ∧
      end_task t' k (end_task t k st).1 =
        ((end_task t k st).1,
         .error ("Task " ++ k ++ " not found in active tasks"))) := by
  constructor
  · intro h
    simp [end_task, h]
  · intro hnd m h
    have h1 : (end_task t k st).1.active_tasks = dictPop st.active_tasks k := by
      simp [end_task, h]
    have h2 : dictGet? (end_task t k st).1.active_tasks k = none := by
      rw [h1]
      exact dictGet?_pop_self st.active_tasks k hnd
    refine ⟨by simp [end_task, h, Except.isOk, Except.toBool], ?_⟩
    have hgen : ∀ s : MetricsCollector, dictGet? s.active_tasks k = none →
        end_task t' k s = (s, .error ("Task " ++ k ++ " not found in active tasks")) := by
      intro s hs
      simp [end_task, hs]
    exact hgen _ h2

/-- Witness for C4: end an unknown key on the empty collector, and end the
same key twice after one start. -/
theorem end_task_unknown_key_witness :
    (end_task 1 "a" { tasks := [], active_tasks := [] } =
      ({ tasks := [], active_tasks := [] },
       .error ("Task " ++ "a" ++ " not found in active tasks"))) ∧
    (end_task 2 "b" (end_task 1 "b" (start_task 0 "b" "n" MetricsCollector.init).1).1 =
      ((end_task 1 "b" (start_task 0 "b" "n" MetricsCollector.init).1).1,
       .error ("Task " ++ "b" ++ " not found in active tasks"))) := by
  constructor
  · exact (end_task_unknown_key 1 1 "a" _).1 rfl
  · exact ((end_task_unknown_key 1 2 "b"
      (start_task 0 "b" "n" MetricsCollector.init).1).2 (by decide) _ rfl).2

/-- C9: `update_task` on an active key accepts arbitrary (in particular
negative) integer deltas without error and adds them to the counters, so
counters can decrease and go negative through the public interface. -/
theorem update_task_accepts_negative_deltas (st : MetricsCollector) (k : String)
    (m : TaskMetrics) (g tx c d n : ℤ)
    (h : dictGet? st.active_tasks k = some m) :
    (update_task k (some g) (some tx) (some c) (some d) (some n) st).2 = .ok () ∧
    dictGet? (update_task k (some g) (some tx) (some c) (some d) (some n) st).1.active_tasks k =
      some { m with
              gas_used := m.gas_used + g,
              transaction_count := m.transaction_count + tx,
              contract_calls := m.contract_calls + c,
              data_size := m.data_size + d,
              network_requests := m.network_requests + n } := by
  have hc : dictContains st.active_tasks k = true := by
    simp [dictContains, h]
  refine ⟨by simp [update_task, hc], ?_⟩
  simp [update_task, hc, dictGet?_modify, h]

/-- Witness for C9: all five deltas −5 on a freshly started task leave every
counter at −5 (negative) with no error. -/
theorem update_task_accepts_negative_deltas_witness :
    (update_task "a" (some (-5)) (some (-5)) (some (-5)) (some (-5)) (some (-5))
      { tasks := [],
        active_tasks := [("a", { task_id := "a", task_name := "n", start_time := 0 })] }).2 =
      .ok () ∧
    dictGet? (update_task "a" (some (-5)) (some (-5)) (some (-5)) (some (-5)) (some (-5))
      { tasks := [],
        active_tasks := [("a", { task_id := "a", task_name := "n", start_time := 0 })] }).1.active_tasks
      "a" =
      some { task_id := "a", task_name := "n", start_time := 0, gas_used := -5,
             transaction_count := -5, contract_calls := -5, data_size := -5,
             network_requests := -5 } := by
  have h := update_task_accepts_negative_deltas
    { tasks := [],
      active_tasks := [("a", { task_id := "a", task_name := "n", start_time := 0 })] }
    "a" { task_id := "a", task_name := "n", start_time := 0 } (-5) (-5) (-5) (-5) (-5) rfl
  refine ⟨h.1, ?_⟩
  rw [h.2]
  rfl

/-- `runHandlers` invokes each handler once, in list order, and returns every
outcome (errors are values, never propagated). -/
theorem runHandlers_eq_map (hs : List Handler) (e : Event) :
    runHandlers hs e = hs.map (fun g => g e) := by
  induction hs with
  | nil => rfl
  | cons h t ih => simp [runHandlers, ih]

/-- After `register_handler`, the handler list for that kind is the previous
list (empty if absent) with the handler appended. -/
theorem dictGet?_register_handler (H : EventHandlers) (name : String) (h : Handler) :
    dictGet? (register_handler H name h) name =
      some ((dictGet? H name).getD [] ++ [h]) := by
  unfold register_handler
  by_cases hc : dictContains H name = true
  · obtain ⟨hs, hhs⟩ : ∃ hs, dictGet? H name = some hs := by
      cases hv : dictGet? H name with
      | none => simp [dictContains, hv] at hc
      | some hs => exact ⟨hs, rfl⟩
    simp [hc, dictGet?_modify, hhs]
  · have hv : dictGet? H name = none := by
      cases hv : dictGet? H name with
      | none => rfl
      | some hs => simp [dictContains, hv] at hc
    simp [hc, dictGet?_modify, dictGet?_insert, hv]

/-- Unregistered kinds keep their lookup across `register_handler`. -/
theorem dictGet?_register_handler_ne (H : EventHandlers) (name name' : String)
    (h : Handler) (hne : name ≠ name') :
    dictGet? (register_handler H name h) name' = dictGet? H name' := by
  unfold register_handler
  have hnn : ¬ name = name' := hne
  by_cases hc : dictContains H name = true
  · simp [hc, dictGet?_modify, hnn]
  · simp [hc, dictGet?_modify, dictGet?_insert, hnn]

/-- C7: dispatching invokes every registered handler for the kind in
registration order — registering the same handler twice makes it run twice,
appended after the previously registered handlers — and each handler's
outcome (including a raise, which is caught) is collected without cutting the
iteration short or propagating to the caller. -/
theorem dispatch_invokes_all_handlers_in_order (H : EventHandlers) (name : String)
    (h : Handler) (e : Event) :
    process_event (register_handler (register_handler H name h) name h) e name =
      process_event H e name ++ [h e, h e] ∧
    (∀ hs : List Handler, runHandlers hs e = hs.map (fun g => g e)) := by
  constructor
  · rw [process_event, dictGet?_register_handler, dictGet?_register_handler]
    cases hv : dictGet? H name with
    | none => simp [process_event, hv, runHandlers_eq_map, runHandlers]
    | some hs => simp [process_event, hv, runHandlers_eq_map]
  · exact fun hs => runHandlers_eq_map hs e

/-- C10: dispatching an event for a kind with no registered handlers (either
no entry for the kind, or an emptied handler list) invokes nothing and raises
nothing. -/
theorem dispatch_unregistered_kind_noop (H : EventHandlers) (e : Event) (name : String)
    (h : dictGet? H name = none ∨ dictGet? H name = some []) :
    process_event H e name = [] := by
  rcases h with h | h <;> simp [process_event, h, runHandlers]

/-- Witness for C10: dispatch on an empty registry. -/
theorem dispatch_unregistered_kind_noop_witness :
    process_event [] { transactionHash := 1, payload := 0 } "Transfer" = [] :=
  dispatch_unregistered_kind_noop [] _ "Transfer" (Or.inl rfl)

/-! ### C8: failures of the external source still finalize metrics -/

/-- Ending a task right after starting it succeeds and moves the key from the
active mapping to the completed mapping. -/
theorem end_after_start (t0 t1 : ℚ) (task_id task_name : String) (st : MetricsCollector)
    (hnd : (dictKeys st.active_tasks).Nodup) :
    (end_task t1 task_id (start_task t0 task_id task_name st).1).2.isOk = true ∧
    dictContains (end_task t1 task_id (start_task t0 task_id task_name st).1).1.tasks
      task_id = true ∧
    dictContains (end_task t1 task_id (start_task t0 task_id task_name st).1).1.active_tasks
      task_id = false := by
  have hget : dictGet? (start_task t0 task_id task_name st).1.active_tasks task_id =
      some { task_id, task_name, start_time := t0 } := by
    simp [start_task, dictGet?_insert]
  have hnd1 : (dictKeys (start_task t0 task_id task_name st).1.active_tasks).Nodup := by
    simpa [start_task] using nodup_dictKeys_insert st.active_tasks task_id _ hnd
  refine ⟨by simp [end_task, hget, Except.isOk, Except.toBool], ?_, ?_⟩
  · simp [end_task, hget, dictContains, dictGet?_insert]
  · simp only [end_task, hget]
    simp [dictContains, dictGet?_pop_self _ task_id hnd1]

/-- C8: when the external source raises during the query, both
`watch_address_transfers` and `get_past_events` propagate exactly that error
to the caller, and only after the enclosing instrumented operation has been
ended: the operation's key is in the completed mapping and no longer active. -/
theorem source_failure_finalizes_metrics (t0 t1 : ℚ) (EL : EventLogger)
    (address kind err : String)
    (hC : EL.hasContract = true)
    (hnd : (dictKeys EL.metrics_collector.active_tasks).Nodup) :
    ((watch_address_transfers t0 t1 EL address (.error err)).2 = .error err ∧
     dictContains (watch_address_transfers t0 t1 EL address
        (.error err)).1.metrics_collector.tasks
       ("watch_transfers_" ++ address.take 10) = true ∧
     dictContains (watch_address_transfers t0 t1 EL address
        (.error err)).1.metrics_collector.active_tasks
       ("watch_transfers_" ++ address.take 10) = false) ∧
    ((get_past_events t0 t1 EL kind (.error err)).2 = .error err ∧
     dictContains (get_past_events t0 t1 EL kind (.error err)).1.metrics_collector.tasks
       ("get_past_" ++ kind ++ "_events") = true ∧
     dictContains (get_past_events t0 t1 EL kind
        (.error err)).1.metrics_collector.active_tasks
       ("get_past_" ++ kind ++ "_events") = false) := by
  have hW := end_after_start t0 t1 ("watch_transfers_" ++ address.take 10)
    "Watch Address Transfers" EL.metrics_collector hnd
  have hG := end_after_start t0 t1 ("get_past_" ++ kind ++ "_events")
    ("Get Past " ++ kind ++ " Events") EL.metrics_collector hnd
  constructor
  · obtain ⟨mc3, mFin, hEnd⟩ : ∃ mc3 mFin,
        end_task t1 ("watch_transfers_" ++ address.take 10)
          (start_task t0 ("watch_transfers_" ++ address.take 10)
            "Watch Address Transfers" EL.metrics_collector).1 = (mc3, .ok mFin) := by
      rcases hv : end_task t1 ("watch_transfers_" ++ address.take 10)
          (start_task t0 ("watch_transfers_" ++ address.take 10)
            "Watch Address Transfers" EL.metrics_collector).1 with ⟨mc3, res⟩
      cases res with
      | error e =>
        rw [hv] at hW
        simp [Except.isOk, Except.toBool] at hW
      | ok mFin => exact ⟨mc3, mFin, rfl⟩
    rw [hEnd] at hW
    simp only [] at hW
    refine ⟨?_, ?_, ?_⟩ <;> simp [watch_address_transfers, hC, hEnd]
    · exact hW.2.1
    · simpa using hW.2.2
  · obtain ⟨mc3, mFin, hEnd⟩ : ∃ mc3 mFin,
        end_task t1 ("get_past_" ++ kind ++ "_events")
          (start_task t0 ("get_past_" ++ kind ++ "_events")
            ("Get Past " ++ kind ++ " Events") EL.metrics_collector).1 = (mc3, .ok mFin) := by
      rcases hv : end_task t1 ("get_past_" ++ kind ++ "_events")
          (start_task t0 ("get_past_" ++ kind ++ "_events")
            ("Get Past " ++ kind ++ " Events") EL.metrics_collector).1 with ⟨mc3, res⟩
      cases res with
      | error e =>
        rw [hv] at hG
        simp [Except.isOk, Except.toBool] at hG
      | ok mFin => exact ⟨mc3, mFin, rfl⟩
    rw [hEnd] at hG
    simp only [] at hG
    refine ⟨?_, ?_, ?_⟩ <;> simp [get_past_events, hC, hEnd]
    · exact hG.2.1
    · simpa using hG.2.2

/-- Witness for C8 on a fresh logger with a configured contract. -/
theorem source_failure_finalizes_metrics_witness :
    (watch_address_transfers 0 1
      { metrics_collector := {}, event_handlers := [], hasContract := true }
      "0xabc" (.error "network timeout")).2 = .error "network timeout" ∧
    dictContains (watch_address_transfers 0 1
      { metrics_collector := {}, event_handlers := [], hasContract := true }
      "0xabc" (.error "network timeout")).1.metrics_collector.tasks
      ("watch_transfers_" ++ "0xabc".take 10) = true :=
  have h := source_failure_finalizes_metrics 0 1
    { metrics_collector := {}, event_handlers := [], hasContract := true }
    "0xabc" "Transfer" "network timeout" rfl (by decide)
  ⟨h.1.1, h.1.2.1⟩

/-! ### C5: summary aggregates -/

/-- When every completed record carries a complexity level, the per-level
counts over the five levels add up to the number of completed records. -/
theorem countP_levels_sum (vals : List TaskMetrics)
    (h : ∀ m ∈ vals, (m.complexity_level).isSome) :
    (ComplexityLevel.all.map (fun level =>
      vals.countP (fun m => m.complexity_level = some level))).sum = vals.length := by
  induction vals with
  | nil => simp [ComplexityLevel.all]
  | cons m t ih =>
    have hm := h m (List.mem_cons_self m t)
    have ht : ∀ x ∈ t, (x.complexity_level).isSome :=
      fun x hx => h x (List.mem_cons_of_mem m hx)
    obtain ⟨l0, hl0⟩ := Option.isSome_iff_exists.mp hm
    have ihs := ih ht
    cases l0 <;>
      simp [ComplexityLevel.all, List.countP_cons, hl0] at ihs ⊢ <;>
      omega

/-- C5 (amended): `get_summary` of a collector with no completed operations is
the all-zero aggregate with an EMPTY histogram; with at least one completed
operation the histogram lists all five levels in order (zero counts where
unobserved), the counts add up to the number of completed operations (when
each record carries a level, as `end_task` guarantees), and the mean score is
the two-decimal rounding of the arithmetic mean. -/
theorem get_summary_aggregates (st : MetricsCollector) :
    (st.tasks = [] → get_summary st =
      { total_tasks := 0, avg_complexity_score := 0, avg_execution_time := 0,
        total_gas_used := 0, complexity_distribution := [] }) ∧
    (st.tasks ≠ [] →
      (get_summary st).total_tasks = st.tasks.length ∧
      (get_summary st).complexity_distribution.map Prod.fst =
        ["SIMPLE", "MODERATE", "COMPLEX", "VERY_COMPLEX", "EXTREME"] ∧
      ((∀ m ∈ dictValues st.tasks, (m.complexity_level).isSome) →
        ((get_summary st).complexity_distribution.map Prod.snd).sum =
          (get_summary st).total_tasks) ∧
      (get_summary st).avg_complexity_score =
        pyRound 2 (((dictValues st.tasks).map (fun m => m.complexity_score.getD 0)).sum
          / (dictValues st.tasks).length)) := by
  constructor
  · intro h
    simp [get_summary, h]
  · intro h
    refine ⟨?_, ?_, ?_, ?_⟩
    · simp [get_summary, h, dictValues]
    · simp [get_summary, h, ComplexityLevel.all, ComplexityLevel.levelName]
    · intro hlev
      have := countP_levels_sum (dictValues st.tasks) hlev
      simp [get_summary, h, List.map_map]
      simpa [Function.comp] using this
    · simp [get_summary, h]

/-- Witness for C5: the empty collector, and a collector with one completed
operation (started at 0, ended at 1). -/
theorem get_summary_aggregates_witness :
    get_summary MetricsCollector.init =
      { total_tasks := 0, avg_complexity_score := 0, avg_execution_time := 0,
        total_gas_used := 0, complexity_distribution := [] } ∧
    ((get_summary (end_task 1 "a" (start_task 0 "a" "n" MetricsCollector.init).1).1).complexity_distribution.map
        Prod.fst = ["SIMPLE", "MODERATE", "COMPLEX", "VERY_COMPLEX", "EXTREME"] ∧
     ((get_summary (end_task 1 "a" (start_task 0 "a" "n" MetricsCollector.init).1).1).complexity_distribution.map
        Prod.snd).sum =
       (get_summary (end_task 1 "a" (start_task 0 "a" "n" MetricsCollector.init).1).1).total_tasks) := by
  have h1 := (get_summary_aggregates MetricsCollector.init).1 rfl
  have h2 := (get_summary_aggregates
    (end_task 1 "a" (start_task 0 "a" "n" MetricsCollector.init).1).1).2 (by decide)
  exact ⟨h1, h2.2.1, h2.2.2.1 (by decide)⟩

/-- C5 counterexample to the claim as stated: in the empty state the
histogram is the empty mapping — it does not contain all five levels (not
even "SIMPLE"). -/
theorem get_summary_empty_histogram_counterexample :
    (get_summary MetricsCollector.init).complexity_distribution = [] ∧
    "SIMPLE" ∉ (get_summary MetricsCollector.init).complexity_distribution.map Prod.fst := by
  constructor
  · simp [get_summary, MetricsCollector.init]
  · simp [get_summary, MetricsCollector.init]

/-! ### C3: disjointness of the active and completed mappings -/

/-- One lifecycle call preserves well-formedness and disjointness, provided a
start never targets a key that already has a completed record. -/
theorem stepOp_preserves (st : MetricsCollector) (op : TraceOp)
    (hWF : WFCollector st) (hD : DisjointMaps st)
    (hok : match op with
           | .startOp _ task_id _ => task_id ∉ dictKeys st.tasks
           | _ => True) :
    WFCollector (stepOp st op) ∧ DisjointMaps (stepOp st op) := by
  obtain ⟨hndT, hndA⟩ := hWF
  cases op with
  | startOp t task_id task_name =>
    simp only [stepOp, start_task]
    refine ⟨⟨hndT, nodup_dictKeys_insert _ _ _ hndA⟩, ?_⟩
    intro k hk
    rcases (mem_dictKeys_insert _ _ _ _).mp hk with hk | hk
    · exact hD k hk
    · subst hk
      exact hok
  | updateOp task_id g tx c d n =>
    by_cases hc : dictContains st.active_tasks task_id = true
    · simp only [stepOp, update_task, hc, if_true]
      refine ⟨⟨hndT, by rw [dictKeys_modify]; exact hndA⟩, ?_⟩
      intro k hk
      rw [dictKeys_modify] at hk
      exact hD k hk
    · simp only [stepOp, update_task, hc, if_false]
      exact ⟨⟨hndT, hndA⟩, hD⟩
  | endOp t task_id =>
    cases hv : dictGet? st.active_tasks task_id with
    | none =>
      simp only [stepOp, end_task, hv]
      exact ⟨⟨hndT, hndA⟩, hD⟩
    | some m =>
      simp only [stepOp, end_task, hv]
      refine ⟨⟨nodup_dictKeys_insert _ _ _ hndT,
        (dictKeys_pop_sublist st.active_tasks task_id).nodup hndA⟩, ?_⟩
      intro k hk
      obtain ⟨hkA, hkne⟩ := mem_dictKeys_pop st.active_tasks task_id k hndA hk
      intro hkT
      rcases (mem_dictKeys_insert _ _ _ _).mp hkT with hkT | hkT
      · exact hD k hkA hkT
      · exact hkne hkT

/-- Invariant preservation along a whole trace. -/
theorem runOps_preserves (ops : List TraceOp) (st : MetricsCollector)
    (hWF : WFCollector st) (hD : DisjointMaps st) (hg : goodTrace st ops) :
    WFCollector (runOps st ops) ∧ DisjointMaps (runOps st ops) := by
  induction ops generalizing st with
  | nil => exact ⟨hWF, hD⟩
  | cons op rest ih =>
    obtain ⟨hop, hrest⟩ := hg
    have h1 := stepOp_preserves st op hWF hD hop
    exact ih (stepOp st op) h1.1 h1.2 hrest

/-- C3 (amended): starting from a well-formed collector whose two mappings
are disjoint, any sequence of start/update/end calls that never starts a key
already holding a completed record keeps the active and completed mappings
disjoint.  (Starting a previously completed key breaks the invariant — see
the counterexample.) -/
theorem active_and_completed_disjoint (ops : List TraceOp) (st : MetricsCollector)
    (hWF : WFCollector st) (hD : DisjointMaps st) (hg : goodTrace st ops) :
    DisjointMaps (runOps st ops) :=
  (runOps_preserves ops st hWF hD hg).2

/-- Witness for C3 (amended) on a start/end/start trace over distinct keys. -/
theorem active_and_completed_disjoint_witness :
    DisjointMaps (runOps MetricsCollector.init
      [.startOp 0 "a" "n", .endOp 1 "a", .startOp 2 "b" "n"]) := by
  refine active_and_completed_disjoint _ MetricsCollector.init
    ⟨by decide, by decide⟩ ?_ ?_
  · intro k hk
    simp [MetricsCollector.init, dictKeys] at hk
  · exact ⟨by decide, trivial, by decide, trivial⟩

/-- C3 counterexample to the claim as stated: start "a", end "a", then start
"a" again — the key is now in BOTH the active and the completed mapping, so
the disjointness claimed for arbitrary start/update/end sequences fails. -/
theorem restart_breaks_disjointness_counterexample :
    "a" ∈ dictKeys (runOps MetricsCollector.init
      [.startOp 0 "a" "n", .endOp 1 "a", .startOp 2 "a" "n"]).active_tasks ∧
    "a" ∈ dictKeys (runOps MetricsCollector.init
      [.startOp 0 "a" "n", .endOp 1 "a", .startOp 2 "a" "n"]).tasks ∧
    ¬ DisjointMaps (runOps MetricsCollector.init
      [.startOp 0 "a" "n", .endOp 1 "a", .startOp 2 "a" "n"]) := by
  refine ⟨by decide, by decide, fun hD => ?_⟩
  exact hD "a" (by decide) (by decide)

/-! ### C6: deduplication in `watch_address_transfers` -/

/-- The last event in the list bearing the given transaction hash. -/
def lastWithKey (k : ℕ) : List Event → Option Event
  | [] => none
  | e :: t =>
    match lastWithKey k t with
    | some x => some x
    | none => if e.transactionHash = k then some e else none

/-- Deduplication as the spec words it — "the input order with duplicates
removed, keeping the first occurrence of each transaction identifier" — with
an accumulator of already-seen identifiers. -/
def specDedupKeepFirstAux (seen : List ℕ) : List Event → List Event
  | [] => []
  | e :: t =>
    if e.transactionHash ∈ seen then specDedupKeepFirstAux seen t
    else e :: specDedupKeepFirstAux (e.transactionHash :: seen) t

/-- Spec-worded deduplication, keeping first occurrences whole. -/
def specDedupKeepFirst (events : List Event) : List Event :=
  specDedupKeepFirstAux [] events

theorem specDedupKeepFirstAux_congr (es : List Event) (s1 s2 : List ℕ)
    (h : ∀ k, k ∈ s1 ↔ k ∈ s2) :
    specDedupKeepFirstAux s1 es = specDedupKeepFirstAux s2 es := by
  induction es generalizing s1 s2 with
  | nil => rfl
  | cons e t ih =>
    by_cases hm : e.transactionHash ∈ s1
    · simp [specDedupKeepFirstAux, hm, (h _).mp hm]
      exact ih s1 s2 h
    · have hm2 : e.transactionHash ∉ s2 := fun hx => hm ((h _).mpr hx)
      simp [specDedupKeepFirstAux, hm, hm2]
      exact ih _ _ (fun k => by
        simp only [List.mem_cons]
        exact or_congr Iff.rfl (h k))

theorem dictKeys_foldl_insert (es : List Event) (d : List (ℕ × Event)) :
    dictKeys (es.foldl (fun d e => dictInsert d e.transactionHash e) d) =
      dictKeys d ++ (specDedupKeepFirstAux (dictKeys d) es).map Event.transactionHash := by
  induction es generalizing d with
  | nil => simp [specDedupKeepFirstAux]
  | cons e t ih =>
    rw [List.foldl_cons, ih]
    by_cases hm : e.transactionHash ∈ dictKeys d
    · rw [dictKeys_insert_of_mem _ _ _ hm]
      simp [specDedupKeepFirstAux, hm]
    · rw [dictKeys_insert_of_not_mem _ _ _ hm,
        specDedupKeepFirstAux_congr t (dictKeys d ++ [e.transactionHash])
          (e.transactionHash :: dictKeys d)
          (fun k => by simp [List.mem_append, List.mem_cons, or_comm])]
      simp [specDedupKeepFirstAux, hm]

theorem entries_foldl_insert (es : List Event) (d : List (ℕ × Event))
    (hd : ∀ p ∈ d, (p.2).transactionHash = p.1) :
    ∀ p ∈ es.foldl (fun d e => dictInsert d e.transactionHash e) d,
      (p.2).transactionHash = p.1 := by
  induction es generalizing d with
  | nil => exact hd
  | cons e t ih =>
    rw [List.foldl_cons]
    refine ih _ ?_
    intro p hp
    rcases mem_dictInsert _ _ _ _ hp with hp | hp
    · exact hd p hp
    · simp [hp]

theorem nodup_dictKeys_foldl_insert (es : List Event) (d : List (ℕ × Event))
    (h : (dictKeys d).Nodup) :
    (dictKeys (es.foldl (fun d e => dictInsert d e.transactionHash e) d)).Nodup := by
  induction es generalizing d with
  | nil => exact h
  | cons e t ih =>
    rw [List.foldl_cons]
    exact ih _ (nodup_dictKeys_insert _ _ _ h)

theorem dictGet?_foldl_insert (es : List Event) (d : List (ℕ × Event)) (k : ℕ) :
    dictGet? (es.foldl (fun d e => dictInsert d e.transactionHash e) d) k =
      match lastWithKey k es with
      | some e => some e
      | none => dictGet? d k := by
  induction es generalizing d with
  | nil => rfl
  | cons e t ih =>
    rw [List.foldl_cons, ih]
    cases hv : lastWithKey k t with
    | some x => simp [lastWithKey, hv]
    | none =>
      by_cases h : e.transactionHash = k <;>
        simp [lastWithKey, hv, dictGet?_insert, h]

/-- C6 (amended): `dedupByTxHash` (the dict-comprehension deduplication of
`watch_address_transfers` over the concatenated query results) emits each
transaction identifier exactly once, in the order of identifiers' first
occurrences; but the record kept for an identifier is the LAST input event
bearing it, not the first. -/
theorem dedupByTxHash_first_order_last_payload (from_events to_events : List Event) :
    (dedupByTxHash (from_events ++ to_events)).map Event.transactionHash =
      (specDedupKeepFirst (from_events ++ to_events)).map Event.transactionHash ∧
    ((dedupByTxHash (from_events ++ to_events)).map Event.transactionHash).Nodup ∧
    ∀ e ∈ dedupByTxHash (from_events ++ to_events),
      lastWithKey e.transactionHash (from_events ++ to_events) = some e := by
  have hent := entries_foldl_insert (from_events ++ to_events) [] (by simp)
  have hkeys := dictKeys_foldl_insert (from_events ++ to_events) []
  have hnd := nodup_dictKeys_foldl_insert (from_events ++ to_events) [] (by simp [dictKeys])
  have hmapeq : (dedupByTxHash (from_events ++ to_events)).map Event.transactionHash =
      dictKeys ((from_events ++ to_events).foldl
        (fun d e => dictInsert d e.transactionHash e) []) := by
    unfold dedupByTxHash dictValues dictKeys
    rw [List.map_map]
    exact List.map_congr_left (fun p hp => hent p hp)
  refine ⟨?_, ?_, ?_⟩
  · rw [hmapeq, hkeys]
    simp [specDedupKeepFirst, dictKeys]
  · rw [hmapeq]
    exact hnd
  · intro e he
    unfold dedupByTxHash dictValues at he
    obtain ⟨p, hp, hpe⟩ := List.mem_map.mp he
    have hk : p.1 = e.transactionHash := by rw [← hent p hp, hpe]
    have hget : dictGet? ((from_events ++ to_events).foldl
        (fun d e => dictInsert d e.transactionHash e) []) e.transactionHash = some e := by
      have hmem : (p.1, p.2) ∈ (from_events ++ to_events).foldl
          (fun d e => dictInsert d e.transactionHash e) [] := by simpa using hp
      have := dictGet?_eq_of_mem _ p.1 p.2 hnd hmem
      rw [hk, hpe] at this
      exact this
    have hlk := dictGet?_foldl_insert (from_events ++ to_events) [] e.transactionHash
    rw [hget] at hlk
    cases hv : lastWithKey e.transactionHash (from_events ++ to_events) with
    | some x =>
      rw [hv] at hlk
      simpa using hlk.symm
    | none =>
      rw [hv] at hlk
      simp [dictGet?] at hlk

/-- Witness for C6 (amended): with the same hash queried from both sides, the
kept record is the LAST occurrence. -/
theorem dedupByTxHash_first_order_last_payload_witness :
    lastWithKey 1 ([{ transactionHash := 1, payload := 10 }] ++
        [{ transactionHash := 1, payload := 20 }]) =
      some { transactionHash := 1, payload := 20 } :=
  (dedupByTxHash_first_order_last_payload
      [{ transactionHash := 1, payload := 10 }]
      [{ transactionHash := 1, payload := 20 }]).2.2
    { transactionHash := 1, payload := 20 } (by decide)

/-- C6 counterexample to the claim as stated: two events share a transaction
hash but differ in payload; the code keeps the second (last) one, while
"input order with duplicates removed, keeping the first occurrence" keeps the
first. -/
theorem dedupByTxHash_keeps_last_counterexample :
    dedupByTxHash [{ transactionHash := 1, payload := 10 },
                   { transactionHash := 1, payload := 20 }] =
      [{ transactionHash := 1, payload := 20 }] ∧
    specDedupKeepFirst [{ transactionHash := 1, payload := 10 },
                        { transactionHash := 1, payload := 20 }] =
      [{ transactionHash := 1, payload := 10 }] ∧
    dedupByTxHash [{ transactionHash := 1, payload := 10 },
                   { transactionHash := 1, payload := 20 }] ≠
      specDedupKeepFirst [{ transactionHash := 1, payload := 10 },
                          { transactionHash := 1, payload := 20 }] := by
  decide

end BlockchainExamples
